import Mathlib

/-!
Shallow embedding of the itchio/httpkit repository (HTTP-backed random-access
file + resumable chunked uploader) and proofs about the claims of its
specification.  Definitions are translated from the Go source files:
`httpfile/httpfile.go`, `httpfile/httpreader.go`, `htfs/conn.go`,
`uploader/resumable2.go` and the chunk-uploader source.  Bytes are modelled as
`Nat`, Go `int64` as `Int`, Go slices as `List`.
-/

namespace HTTPKit

/-- Byte values carried by buffers and streams. -/
abbrev Byte := Nat

/-- Forward byte tolerance for reusing a connection; `maxDiscard` in
`httpfile/httpfile.go` (1 MiB). -/
def maxDiscard : Int := 1048576

/-- Cap on consecutive URL renewals; `maxRenewals` in `httpfile/httpfile.go`. -/
def maxRenewals : Nat := 5

/-- The `ServerError.Code` values from `httpfile/httpfile.go`. -/
inductive ServerErrorCode
  | unknown
  | noRangeSupport
  deriving DecidableEq, Repr

/-- Error model: the `errors.Cause` of the Go errors that the claims talk
about.  Wrapping with `errors.WithStack` / `errors.WithMessage` preserves the
cause, so wrapped errors are identified with their cause. -/
inductive GoErr
  | errNotFound
  | errTooManyRenewals
  | serverError (statusCode : Int) (code : ServerErrorCode)
  | needsRenewalError
  | ioEOF
  | netError
  | tooManyUploadErrors
  | gcsProtocolError
  deriving DecidableEq, Repr

/-- The `isHTTPStatus` helper of `httpfile/httpfile.go`: checks whether the
cause of an error is a `ServerError` with the given status code. -/
def isHTTPStatus (e : GoErr) (statusCode : Int) : Bool :=
  match e with
  | .serverError s _ => s = statusCode
  | _ => false

/-- The `normalizeError` function of `httpfile/httpfile.go`: maps an HTTP 404
server error to the distinguished `ErrNotFound` sentinel. -/
def normalizeError (e : GoErr) : GoErr :=
  if isHTTPStatus e 404 then .errNotFound else e

/-- The `shouldRetry` method of `httpfile/httpfile.go`: EOF is never retried,
network errors always are, and server errors only for 429/500/502/503. -/
def shouldRetry (e : GoErr) : Bool :=
  match e with
  | .ioEOF => false
  | .netError => true
  | .serverError s _ => s = 429 ∨ s = 500 ∨ s = 502 ∨ s = 503
  | _ => false

/-! ## Seek (`HTTPFile.Seek`, httpfile/httpfile.go) -/

/-- The part of the `HTTPFile` state that `Seek` touches: the total size and
the stream cursor. -/
structure SeekState where
  size : Int
  offset : Int
  deriving DecidableEq, Repr

/-- The `HTTPFile.Seek` method of `httpfile/httpfile.go`.  `whence` follows the
`os` package: `SEEK_SET = 0`, `SEEK_CUR = 1`, `SEEK_END = 2`.  Returns the new
state, the returned offset, and whether an error was returned. -/
def seek (hf : SeekState) (offset : Int) (whence : Int) : SeekState × Int × Bool :=
  if whence = 0 then
    let newOffset := offset
    let newOffset := if newOffset < 0 then 0 else newOffset
    let newOffset := if newOffset > hf.size then hf.size else newOffset
    ({ hf with offset := newOffset }, newOffset, false)
  else if whence = 2 then
    let newOffset := hf.size + offset
    let newOffset := if newOffset < 0 then 0 else newOffset
    let newOffset := if newOffset > hf.size then hf.size else newOffset
    ({ hf with offset := newOffset }, newOffset, false)
  else if whence = 1 then
    let newOffset := hf.offset + offset
    let newOffset := if newOffset < 0 then 0 else newOffset
    let newOffset := if newOffset > hf.size then hf.size else newOffset
    ({ hf with offset := newOffset }, newOffset, false)
  else
    (hf, hf.offset, true)

/-- The raw (unclamped) cursor that `Seek` computes for a known whence. -/
def seekRaw (hf : SeekState) (offset : Int) (whence : Int) : Int :=
  if whence = 0 then offset
  else if whence = 2 then hf.size + offset
  else hf.offset + offset

/-- C8: for whence in {Set, Cur, End} the seek computes the corresponding new
cursor, clamps it into [0, size], stores it and returns it without error;
any other whence yields an error and leaves the cursor unchanged. -/
theorem c8_seek_clamps_and_stores (hf : SeekState) (offset whence : Int)
    (hsize : 0 ≤ hf.size) :
    (whence = 0 ∨ whence = 1 ∨ whence = 2 →
      seek hf offset whence =
        ({ hf with offset := max 0 (min (seekRaw hf offset whence) hf.size) },
          max 0 (min (seekRaw hf offset whence) hf.size), false)) ∧
    (whence ≠ 0 → whence ≠ 1 → whence ≠ 2 →
      seek hf offset whence = (hf, hf.offset, true)) := by
  constructor
  · intro hw
    rcases hw with h | h | h <;> subst h <;>
      simp only [seek, seekRaw, if_true, if_false] <;> norm_num <;>
      split <;> split <;> omega
  · intro h0 h1 h2
    simp [seek, h0, h1, h2]

/-- Witness for C8 at concrete inputs: size 10, cursor 4, seek(-3, Cur). -/
theorem c8_seek_clamps_and_stores_witness :
    (0:Int) ≤ (10:Int) ∧
      seek ⟨10, 4⟩ (-3) 1 = (⟨10, 1⟩, 1, false) := by
  constructor
  · norm_num
  · have h := c8_seek_clamps_and_stores ⟨10, 4⟩ (-3) 1 (by norm_num)
    have h1 := h.1 (Or.inr (Or.inl rfl))
    simpa [seekRaw] using h1

/-! ## The reader pool and `borrowReader` (httpfile/httpfile.go) -/

/-- The per-connection data that `borrowReader` consults while scanning the
pool: the reader's absolute offset, its cached byte count, and whether it is
stale (`Stale()` compares `touchedAt` against the stale threshold; we carry
the outcome of that comparison). -/
structure Reader where
  offset : Int
  cached : Nat
  stale : Bool
  deriving DecidableEq, Repr

/-- Candidate update: keep the previous best unless the new candidate has a
strictly smaller difference (the code compares `diff < bestDiff`, whose
initial value `math.MaxInt64` exceeds every eligible difference, modelled by
`none`). -/
def better (cand : Reader × Int) (best : Option (Reader × Int)) :
    Option (Reader × Int) :=
  match best with
  | none => some cand
  | some b => if cand.2 < b.2 then some cand else some b

/-- One iteration of the pool scan in `HTTPFile.borrowReader`: stale readers
are evicted (skipped), then the backward and forward candidate trackers are
updated exactly as in the code. -/
def scanStep (off : Int) (acc : Option (Reader × Int) × Option (Reader × Int))
    (r : Reader) : Option (Reader × Int) × Option (Reader × Int) :=
  if r.stale then acc
  else
    let diff := off - r.offset
    let accB :=
      if diff < 0 ∧ -diff < maxDiscard ∧ -diff ≤ (r.cached : Int) then
        better (r, -diff) acc.2
      else acc.2
    let accF :=
      if 0 ≤ diff ∧ diff < maxDiscard then better (r, diff) acc.1 else acc.1
    (accF, accB)

/-- The full pool scan of `HTTPFile.borrowReader`, returning the best forward
candidate and the best backward candidate. -/
def scanPool (off : Int) (pool : List Reader) :
    Option (Reader × Int) × Option (Reader × Int) :=
  pool.foldl (scanStep off) (none, none)

/-- Outcome of `borrowReader`: reuse a connection forward (discard `diff`
bytes), reuse one backward (set `backtrack := diff`), provision a fresh
connection, or the early end-of-file guard. -/
inductive Borrowed
  | forward (r : Reader) (diff : Int)
  | backward (r : Reader) (diff : Int)
  | provision
  | eofGuard
  deriving DecidableEq, Repr

/-- The candidate selection at the end of `HTTPFile.borrowReader`: a forward
candidate wins if one exists; otherwise, unless backtracking is forbidden, a
backward candidate; otherwise a new connection is provisioned. -/
def borrowSelect (pool : List Reader) (off : Int) (forbid : Bool) : Borrowed :=
  match scanPool off pool with
  | (some best, _) => .forward best.1 best.2
  | (none, bestBack) =>
    if forbid = false then
      match bestBack with
      | some bb => .backward bb.1 bb.2
      | none => .provision
    else .provision

/-- The readers surviving the stale eviction performed during the scan. -/
def survivors (pool : List Reader) : List Reader :=
  pool.filter (fun r => r.stale = false)

/-- The `HTTPFile.borrowReader` function: the early `io.EOF` guard for a
known size, then the scan-and-select, returning the outcome together with the
pool contents after the call (stale entries evicted, the chosen reader
removed). -/
def borrowReader (size : Int) (forbid : Bool) (pool : List Reader)
    (off : Int) : Borrowed × List Reader :=
  if 0 < size ∧ size ≤ off then (.eofGuard, pool)
  else
    match borrowSelect pool off forbid with
    | .forward r d => (.forward r d, (survivors pool).erase r)
    | .backward r d => (.backward r d, (survivors pool).erase r)
    | b => (b, survivors pool)

/-- Entry of `HTTPFile.readAt`: the empty-buffer early return, then the borrow
whose `io.EOF` error is surfaced with 0 bytes read; otherwise the read loop
proceeds with the borrowed reader. -/
inductive ReadAtStep
  | done (n : Nat) (e : Option GoErr) (pool : List Reader)
  | proceed (b : Borrowed) (pool : List Reader)
  deriving DecidableEq, Repr

/-- The guard structure of `HTTPFile.readAt` (httpfile/httpfile.go): a zero
length buffer returns `(0, nil)` before borrowing; a borrow that fails with
the end-of-file guard returns `(0, io.EOF)`. -/
def readAtEntry (size : Int) (forbid : Bool) (pool : List Reader)
    (buflen : Nat) (off : Int) : ReadAtStep :=
  if buflen = 0 then .done 0 none pool
  else
    match borrowReader size forbid pool off with
    | (.eofGuard, poolAfter) => .done 0 (some .ioEOF) poolAfter
    | (b, poolAfter) => .proceed b poolAfter

/-- Forward-reuse eligibility, as a boolean: not stale, and the difference
`off - r.offset` lies in `[0, maxDiscard)`. -/
def eligF (off : Int) (r : Reader) : Bool :=
  !r.stale && decide (0 ≤ off - r.offset) && decide (off - r.offset < maxDiscard)

/-- Backward-reuse eligibility, as a boolean: not stale, the difference is in
`(-maxDiscard, 0)`, and its negation is at most the cached byte count. -/
def eligB (off : Int) (r : Reader) : Bool :=
  !r.stale && decide (off - r.offset < 0) && decide (-(off - r.offset) < maxDiscard)
    && decide (-(off - r.offset) ≤ (r.cached : Int))

/-! Generic facts about the best-candidate fold. -/

/-- One step of a single-candidate tracker. -/
def selStep (P : Reader → Bool) (dval : Reader → Int)
    (o : Option (Reader × Int)) (r : Reader) : Option (Reader × Int) :=
  if P r then better (r, dval r) o else o

/-- A single-candidate tracker over a pool. -/
def selGo (P : Reader → Bool) (dval : Reader → Int) (l : List Reader)
    (o : Option (Reader × Int)) : Option (Reader × Int) :=
  l.foldl (selStep P dval) o

theorem better_ne_none (c : Reader × Int) (o : Option (Reader × Int)) :
    better c o ≠ none := by
  cases o with
  | none => simp [better]
  | some b => simp only [better]; split <;> simp

theorem better_cases (c : Reader × Int) (o : Option (Reader × Int)) (p : Reader × Int)
    (h : better c o = some p) : p = c ∨ o = some p := by
  cases o with
  | none =>
    simp only [better] at h
    injection h with h
    exact Or.inl h.symm
  | some b =>
    simp only [better] at h
    split at h
    · injection h with h; exact Or.inl h.symm
    · injection h with h; exact Or.inr (by rw [h])

theorem better_min (c : Reader × Int) (o : Option (Reader × Int)) (p : Reader × Int)
    (h : better c o = some p) :
    p.2 ≤ c.2 ∧ ∀ q, o = some q → p.2 ≤ q.2 := by
  cases o with
  | none =>
    simp only [better] at h
    injection h with h
    subst h
    exact ⟨le_refl _, fun q hq => by cases hq⟩
  | some b =>
    simp only [better] at h
    split at h <;> injection h with h <;> subst h
    · refine ⟨le_refl _, fun q hq => ?_⟩
      injection hq with hq; subst hq; omega
    · refine ⟨by omega, fun q hq => ?_⟩
      injection hq with hq; subst hq; exact le_refl _

theorem selGo_cons (P : Reader → Bool) (dval : Reader → Int) (hd : Reader)
    (tl : List Reader) (o : Option (Reader × Int)) :
    selGo P dval (hd :: tl) o = selGo P dval tl (selStep P dval o hd) := rfl

theorem selGo_none_iff (P : Reader → Bool) (dval : Reader → Int)
    (l : List Reader) (o : Option (Reader × Int)) :
    selGo P dval l o = none ↔ o = none ∧ ∀ r ∈ l, P r = false := by
  induction l generalizing o with
  | nil => simp [selGo]
  | cons hd tl ih =>
    rw [selGo_cons, ih]
    constructor
    · rintro ⟨h1, h2⟩
      unfold selStep at h1
      split at h1
      · exact absurd h1 (better_ne_none _ _)
      · refine ⟨h1, fun r hr => ?_⟩
        rcases List.mem_cons.mp hr with h | h
        · subst h; simp_all
        · exact h2 r h
    · rintro ⟨h1, h2⟩
      have hhd : P hd = false := h2 hd (by simp)
      refine ⟨?_, fun r hr => h2 r (by simp [hr])⟩
      unfold selStep
      simp [hhd, h1]

theorem selGo_mem (P : Reader → Bool) (dval : Reader → Int)
    (l : List Reader) (o : Option (Reader × Int)) (p : Reader × Int)
    (h : selGo P dval l o = some p) :
    o = some p ∨ (p.1 ∈ l ∧ P p.1 = true ∧ p.2 = dval p.1) := by
  induction l generalizing o with
  | nil => exact Or.inl h
  | cons hd tl ih =>
    rw [selGo_cons] at h
    rcases ih _ h with h1 | h1
    · unfold selStep at h1
      split at h1
      · rcases better_cases _ _ _ h1 with h2 | h2
        · right
          refine ⟨by simp [h2], ?_, by simp [h2]⟩
          rw [h2]; assumption
        · exact Or.inl h2
      · exact Or.inl h1
    · exact Or.inr ⟨by simp [h1.1], h1.2.1, h1.2.2⟩

theorem selGo_min (P : Reader → Bool) (dval : Reader → Int)
    (l : List Reader) (o : Option (Reader × Int)) (p : Reader × Int)
    (h : selGo P dval l o = some p) :
    (∀ q, o = some q → p.2 ≤ q.2) ∧ ∀ r ∈ l, P r = true → p.2 ≤ dval r := by
  induction l generalizing o with
  | nil =>
    have h0 : o = some p := h
    subst h0
    exact ⟨fun q hq => by injection hq with hq; subst hq; exact le_refl _,
      by simp⟩
  | cons hd tl ih =>
    rw [selGo_cons] at h
    have hstep := ih _ h
    have hq1 : ∀ q1, selStep P dval o hd = some q1 → p.2 ≤ q1.2 := hstep.1
    constructor
    · intro q hq
      by_cases hP : P hd = true
      · rcases ho : better (hd, dval hd) o with _ | q1
        · exact absurd ho (better_ne_none _ _)
        · have hle := hq1 q1 (by unfold selStep; simp [hP, ho])
          have hm := (better_min _ _ _ ho).2 q hq
          omega
      · have hP2 : P hd = false := by simp_all
        exact hq1 q (by unfold selStep; simp [hP2, hq])
    · intro r hr hPr
      rcases List.mem_cons.mp hr with h2 | h2
      · subst h2
        rcases ho : better (r, dval r) o with _ | q1
        · exact absurd ho (better_ne_none _ _)
        · have hle := hq1 q1 (by unfold selStep; simp [hPr, ho])
          have hm := (better_min _ _ _ ho).1
          simp only at hm
          omega
      · exact hstep.2 r h2 hPr

theorem scanStep_fst (off : Int)
    (acc : Option (Reader × Int) × Option (Reader × Int)) (r : Reader) :
    (scanStep off acc r).1 =
      selStep (eligF off) (fun x => off - x.offset) acc.1 r := by
  unfold scanStep selStep eligF
  cases hs : r.stale
  · by_cases h1 : (0:Int) ≤ off - r.offset <;>
      by_cases h2 : off - r.offset < maxDiscard <;>
      simp [h1, h2]
  · simp

theorem scanStep_snd (off : Int)
    (acc : Option (Reader × Int) × Option (Reader × Int)) (r : Reader) :
    (scanStep off acc r).2 =
      selStep (eligB off) (fun x => -(off - x.offset)) acc.2 r := by
  unfold scanStep selStep eligB
  cases hs : r.stale
  · by_cases h1 : off - r.offset < 0 <;>
      by_cases h2 : -(off - r.offset) < maxDiscard <;>
      by_cases h3 : -(off - r.offset) ≤ (r.cached : Int) <;>
      simp [h1, h2, h3]
  · simp

/-- The forward component of the pool scan is a single-candidate tracker for
forward eligibility with difference `off - r.offset`. -/
theorem scanPool_fst (off : Int) (l : List Reader)
    (acc : Option (Reader × Int) × Option (Reader × Int)) :
    (l.foldl (scanStep off) acc).1 =
      selGo (eligF off) (fun r => off - r.offset) l acc.1 := by
  induction l generalizing acc with
  | nil => rfl
  | cons hd tl ih =>
    rw [List.foldl_cons, selGo_cons, ih (scanStep off acc hd), scanStep_fst]

/-- The backward component of the pool scan is a single-candidate tracker for
backward eligibility with difference `-(off - r.offset)`. -/
theorem scanPool_snd (off : Int) (l : List Reader)
    (acc : Option (Reader × Int) × Option (Reader × Int)) :
    (l.foldl (scanStep off) acc).2 =
      selGo (eligB off) (fun r => -(off - r.offset)) l acc.2 := by
  induction l generalizing acc with
  | nil => rfl
  | cons hd tl ih =>
    rw [List.foldl_cons, selGo_cons, ih (scanStep off acc hd), scanStep_snd]

/-- The selection of `borrowReader` written through the two candidate
trackers. -/
theorem borrowSelect_eq (pool : List Reader) (off : Int) (forbid : Bool) :
    borrowSelect pool off forbid =
      match selGo (eligF off) (fun r => off - r.offset) pool none with
      | some best => .forward best.1 best.2
      | none =>
        if forbid = false then
          match selGo (eligB off) (fun r => -(off - r.offset)) pool none with
          | some bb => .backward bb.1 bb.2
          | none => .provision
        else .provision := by
  have hp : scanPool off pool =
      (selGo (eligF off) (fun r => off - r.offset) pool none,
        selGo (eligB off) (fun r => -(off - r.offset)) pool none) := by
    rw [← scanPool_fst off pool (none, none), ← scanPool_snd off pool (none, none)]
    rfl
  unfold borrowSelect
  rw [hp]
  cases selGo (eligF off) (fun r => off - r.offset) pool none <;> rfl

/-- C3: characterization of the `borrowReader` candidate logic.  A forward
result is an eligible pool member whose difference is minimal among all
forward-eligible members; a backward result can only occur when backtracking
is not forbidden, is backward-eligible with minimal negated difference; and a
forward candidate, when one exists, is always preferred over any backward
candidate. -/
theorem c3_borrow_candidate_logic (pool : List Reader) (off : Int)
    (forbid : Bool) :
    (∀ r d, borrowSelect pool off forbid = .forward r d →
      r ∈ pool ∧ eligF off r = true ∧ d = off - r.offset ∧
        ∀ x ∈ pool, eligF off x = true → d ≤ off - x.offset) ∧
    (∀ r d, borrowSelect pool off forbid = .backward r d →
      forbid = false ∧ r ∈ pool ∧ eligB off r = true ∧ d = -(off - r.offset) ∧
        ∀ x ∈ pool, eligB off x = true → d ≤ -(off - x.offset)) ∧
    ((∃ r ∈ pool, eligF off r = true) →
      ∃ r d, borrowSelect pool off forbid = .forward r d) ∧
    (forbid = false → (∃ r ∈ pool, eligB off r = true) →
      (∃ r d, borrowSelect pool off forbid = .forward r d) ∨
        ∃ r d, borrowSelect pool off forbid = .backward r d) := by
  have heq := borrowSelect_eq pool off forbid
  refine ⟨?_, ?_, ?_, ?_⟩
  · intro r d h
    rw [heq] at h
    rcases hF : selGo (eligF off) (fun r => off - r.offset) pool none
      with _ | best
    · rw [hF] at h
      simp only at h
      split at h <;> [skip; cases h]
      split at h <;> cases h
    · rw [hF] at h
      simp only at h
      injection h with h1 h2
      subst h1; subst h2
      rcases selGo_mem _ _ _ _ _ hF with h1 | h1
      · cases h1
      · exact ⟨h1.1, h1.2.1, h1.2.2,
          fun x hx he => h1.2.2 ▸ (selGo_min _ _ _ _ _ hF).2 x hx he⟩
  · intro r d h
    rw [heq] at h
    rcases hF : selGo (eligF off) (fun r => off - r.offset) pool none
      with _ | best
    · rw [hF] at h
      simp only at h
      split at h
      · rcases hB : selGo (eligB off) (fun r => -(off - r.offset)) pool none
          with _ | bb
        · rw [hB] at h; cases h
        · rw [hB] at h
          injection h with h1 h2
          subst h1; subst h2
          rcases selGo_mem _ _ _ _ _ hB with h1 | h1
          · cases h1
          · refine ⟨by assumption, h1.1, h1.2.1, h1.2.2, fun x hx he => ?_⟩
            exact h1.2.2 ▸ (selGo_min _ _ _ _ _ hB).2 x hx he
      · cases h
    · rw [hF] at h
      cases h
  · rintro ⟨r, hr, he⟩
    rw [heq]
    rcases hF : selGo (eligF off) (fun r => off - r.offset) pool none
      with _ | best
    · have := (selGo_none_iff (eligF off) (fun r => off - r.offset) pool none).mp hF
      rw [this.2 r hr] at he
      cases he
    · exact ⟨best.1, best.2, rfl⟩
  · rintro hforbid ⟨r, hr, he⟩
    rw [heq]
    rcases hF : selGo (eligF off) (fun r => off - r.offset) pool none
      with _ | best
    · right
      rcases hB : selGo (eligB off) (fun r => -(off - r.offset)) pool none
        with _ | bb
      · have := (selGo_none_iff (eligB off) (fun r => -(off - r.offset)) pool none).mp hB
        rw [this.2 r hr] at he
        cases he
      · exact ⟨bb.1, bb.2, by simp [hforbid]⟩
    · exact Or.inl ⟨best.1, best.2, rfl⟩

/-- Witness for C3: a pool with one fresh reader at offset 0 and one fresh
reader at offset 4; borrowing at offset 5 with backtracking allowed selects
the closer reader forward. -/
theorem c3_borrow_candidate_logic_witness :
    ∃ r d, borrowSelect [⟨0, 0, false⟩, ⟨4, 2, false⟩] 5 false = .forward r d :=
  (c3_borrow_candidate_logic [⟨0, 0, false⟩, ⟨4, 2, false⟩] 5 false).2.2.1
    ⟨⟨4, 2, false⟩, by simp, by decide⟩

/-- C10: `readAt` with an empty buffer returns `(0, nil)` without touching the
pool, and `readAt` past a known positive size returns `(0, io.EOF)` without
borrowing, creating or evicting any pooled connection. -/
theorem c10_readAt_guards (size : Int) (forbid : Bool) (pool : List Reader)
    (buflen : Nat) (off : Int) :
    (buflen = 0 → readAtEntry size forbid pool buflen off = .done 0 none pool) ∧
    (0 < buflen → 0 < size → size ≤ off →
      readAtEntry size forbid pool buflen off = .done 0 (some .ioEOF) pool) := by
  constructor
  · intro h
    simp [readAtEntry, h]
  · intro h1 h2 h3
    have hne : ¬buflen = 0 := by omega
    simp [readAtEntry, hne, borrowReader, h2, h3]

/-- Witness for C10 at concrete inputs: size 5, reads at offset 7 with a
1-byte buffer and at offset 3 with an empty buffer. -/
theorem c10_readAt_guards_witness :
    readAtEntry 5 false [] 1 7 = .done 0 (some .ioEOF) [] ∧
      readAtEntry 5 false [] 0 3 = .done 0 none [] :=
  ⟨(c10_readAt_guards 5 false [] 1 7).2 (by norm_num) (by norm_num) (by norm_num),
    (c10_readAt_guards 5 false [] 0 3).1 rfl⟩

/-! ## The backtracking read path (`httpReader.Read`,
httpfile/httpfile.go and httpfile/httpreader.go) -/

/-- State of an `httpReader` as far as `Read` is concerned: absolute offset,
the fixed-size cache slice, the count of valid cached bytes, the pending
backtrack, and the upstream byte stream still to be served by the wrapped
response body. -/
structure RState where
  offset : Int
  cache : List Byte
  cached : Nat
  backtrack : Nat
  upstream : List Byte
  deriving DecidableEq, Repr

/-- The `httpReader.Read` method with a destination buffer of length `k`.
If a backtrack is pending, the last `backtrack` bytes of the cache serve the
read (short read of `min k backtrack` bytes) and neither the offset nor the
upstream stream is touched.  Otherwise the upstream supplies
`min k upstream.length` bytes, the offset advances, and the cache window
slides to keep the most recently consumed bytes at its tail. -/
def hrRead (s : RState) (k : Nat) : List Byte × RState :=
  if 0 < s.backtrack then
    let readLen := min k s.backtrack
    let cacheStartIndex := s.cache.length - s.backtrack
    ((s.cache.drop cacheStartIndex).take readLen,
      { s with backtrack := s.backtrack - readLen })
  else
    let readBytes := min k s.upstream.length
    let data := s.upstream.take readBytes
    (data,
      { offset := s.offset + readBytes
        cache := s.cache.drop readBytes ++ data
        cached := min (s.cached + readBytes) s.cache.length
        backtrack := s.backtrack
        upstream := s.upstream.drop readBytes })

/-- Setting the pending backtrack, as `borrowReader` does on backward reuse
(`reader.backtrack = int(bestBackDiff)`). -/
def hrBacktrack (s : RState) (n : Nat) : RState :=
  { s with backtrack := n }

/-- C6: round trip `read k; backtrack k; read k`.  With no pending backtrack,
`k` within the cache capacity and `k` bytes available upstream, the first
read returns the next `k` upstream bytes and leaves at least `k` bytes
cached; after `backtrack k` the second read returns the same bytes, from the
cache alone: the offset, the upstream stream, the cache and the cached count
are all unchanged across the backtrack/read pair. -/
theorem c6_backtrack_roundtrip (s : RState) (k : Nat)
    (hb : s.backtrack = 0) (hcap : k ≤ s.cache.length)
    (hup : k ≤ s.upstream.length) :
    (hrRead s k).1 = s.upstream.take k ∧
    k ≤ (hrRead s k).2.cached ∧
    (hrRead (hrBacktrack (hrRead s k).2 k) k).1 = (hrRead s k).1 ∧
    (hrRead (hrBacktrack (hrRead s k).2 k) k).2.offset = (hrRead s k).2.offset ∧
    (hrRead (hrBacktrack (hrRead s k).2 k) k).2.upstream =
      (hrRead s k).2.upstream ∧
    (hrRead (hrBacktrack (hrRead s k).2 k) k).2.cache = (hrRead s k).2.cache ∧
    (hrRead (hrBacktrack (hrRead s k).2 k) k).2.cached = (hrRead s k).2.cached ∧
    (hrRead (hrBacktrack (hrRead s k).2 k) k).2.backtrack = 0 := by
  have hmin : min k s.upstream.length = k := min_eq_left hup
  have hr1 : hrRead s k =
      (s.upstream.take k,
        { offset := s.offset + k
          cache := s.cache.drop k ++ s.upstream.take k
          cached := min (s.cached + k) s.cache.length
          backtrack := 0
          upstream := s.upstream.drop k }) := by
    unfold hrRead
    rw [hb]
    simp [hmin]
  rw [hr1]
  rcases Nat.eq_zero_or_pos k with hk | hk
  · subst hk
    refine ⟨rfl, Nat.zero_le _, ?_⟩
    unfold hrBacktrack hrRead
    have hc : min (s.cached + 0) s.cache.length ≤
        (s.cache.drop 0 ++ s.upstream.take 0).length := by
      simp
    simp [min_eq_left hc]
  · have hlen1 : (s.cache.drop k ++ s.upstream.take k).length = s.cache.length := by
      rw [List.length_append, List.length_drop, List.length_take]
      omega
    have htklen : (s.upstream.take k).length = k := by
      rw [List.length_take]; omega
    have hcached : k ≤ min (s.cached + k) s.cache.length := by
      omega
    have hr2 : hrRead (hrBacktrack
        { offset := s.offset + (k : Int)
          cache := s.cache.drop k ++ s.upstream.take k
          cached := min (s.cached + k) s.cache.length
          backtrack := 0
          upstream := s.upstream.drop k } k) k =
        (s.upstream.take k,
          { offset := s.offset + (k : Int)
            cache := s.cache.drop k ++ s.upstream.take k
            cached := min (s.cached + k) s.cache.length
            backtrack := 0
            upstream := s.upstream.drop k }) := by
      unfold hrBacktrack hrRead
      simp only [hk, if_true, min_self, Nat.sub_self, hlen1]
      have hstart : s.cache.length - k = (s.cache.drop k).length := by
        rw [List.length_drop]
      rw [hstart, List.drop_left]
      rw [List.take_of_length_le (le_of_eq htklen)]
    refine ⟨rfl, hcached, ?_, ?_, ?_, ?_, ?_, ?_⟩ <;> rw [hr2]

/-- Witness for C6 at a concrete state: cache capacity 2, upstream `[7,8,9]`,
round trip with k = 2. -/
theorem c6_backtrack_roundtrip_witness :
    (hrRead (hrBacktrack (hrRead ⟨0, [0, 0], 0, 0, [7, 8, 9]⟩ 2).2 2) 2).1 =
      (hrRead ⟨0, [0, 0], 0, 0, [7, 8, 9]⟩ 2).1 ∧
    (hrRead (hrBacktrack (hrRead ⟨0, [0, 0], 0, 0, [7, 8, 9]⟩ 2).2 2) 2).2.offset =
      (hrRead ⟨0, [0, 0], 0, 0, [7, 8, 9]⟩ 2).2.offset :=
  ⟨(c6_backtrack_roundtrip ⟨0, [0, 0], 0, 0, [7, 8, 9]⟩ 2 rfl (by decide)
      (by decide)).2.2.1,
    (c6_backtrack_roundtrip ⟨0, [0, 0], 0, 0, [7, 8, 9]⟩ 2 rfl (by decide)
      (by decide)).2.2.2.1⟩

/-! ## Connect attempts (htfs/conn.go, httpfile/httpreader.go,
httpfile/httpfile.go) -/

/-- The response facts a connect attempt inspects: the status code, the
`Content-Length`, and the outcome of the consumer's `needsRenewal` predicate
on that response and its body. -/
structure HttpResp where
  statusCode : Int
  contentLength : Int
  renewalWanted : Bool
  deriving DecidableEq, Repr

/-- Outcome of one connect attempt: success (recording the response
`Content-Length`), an internal renewal-required signal, or a failure. -/
inductive ConnectOutcome
  | ok (contentLength : Int)
  | renew
  | fail (e : GoErr)
  deriving DecidableEq, Repr

/-- The `conn.tryConnect` of htfs/conn.go (the `tryURL` closure of
httpfile/httpfile.go `Connect` has the same shape): HTTP 200 with a non-zero
offset is the distinguished no-range-support server error; other non-2xx
responses either signal renewal or produce a server error; 2xx responses
succeed and record the response metadata. -/
def tryConnectHtfs (offset : Int) (res : HttpResp) : ConnectOutcome :=
  if res.statusCode = 200 ∧ 0 < offset then
    .fail (.serverError 200 .noRangeSupport)
  else if ¬res.statusCode / 100 = 2 then
    if res.renewalWanted then .renew
    else .fail (.serverError res.statusCode .unknown)
  else .ok res.contentLength

/-- The `httpReader.tryConnect` of httpfile/httpreader.go: identical to the
htfs variant except that its HTTP 200 branch carries no offset guard — every
200 response is rejected as no-range-support, even at offset 0. -/
def tryConnectHttpreader (offset : Int) (res : HttpResp) : ConnectOutcome :=
  if res.statusCode = 200 then
    .fail (.serverError 200 .noRangeSupport)
  else if ¬res.statusCode / 100 = 2 then
    if res.renewalWanted then .renew
    else .fail (.serverError res.statusCode .unknown)
  else .ok res.contentLength

/-- C4: divergence of `httpReader.tryConnect` (httpfile/httpreader.go) at the
failing input offset 0 with an HTTP 200 response.  The claim (and
`conn.tryConnect` of htfs/conn.go, shown alongside) accepts a 200 at offset 0
recording its Content-Length, but the httpreader variant rejects it with the
no-range-support server error. -/
theorem c4_http200_at_offset_zero :
    tryConnectHttpreader 0 ⟨200, 8, false⟩ =
        .fail (.serverError 200 .noRangeSupport) ∧
      tryConnectHtfs 0 ⟨200, 8, false⟩ = .ok 8 := by
  decide

/-- Modelled from the spec: retry controller state (§4.2).  The retrycontext
implementation is not among the sources (only its tests and callers are);
`should_try` returns true until the attempt counter reaches `max_tries`,
and `retry` increments the counter. -/
structure RetryCtx where
  tries : Nat
  maxTries : Nat
  deriving DecidableEq, Repr

/-- Modelled from the spec: `retrycontext.ShouldTry` (§4.2). -/
def shouldTry (c : RetryCtx) : Bool := c.tries < c.maxTries

/-- Modelled from the spec: the counter increment of `retrycontext.Retry`
(§4.2); the backoff sleep has no observable effect here. -/
def ctxRetry (c : RetryCtx) : RetryCtx := { c with tries := c.tries + 1 }

/-- The retry loop of `httpReader.Connect` (httpfile/httpfile.go, lines
271-331), driven by the response each successive GET attempt receives.  URL
renewal (`renewURL`) succeeds in this model, as `getURL` is pure here.
Returns the error outcome and the number of connect attempts made.  `fuel`
bounds the recursion; every run of interest consumes at most one unit per
retry or renewal. -/
def connectLoop (responses : Nat → HttpResp) (offset : Int) :
    Nat → Nat → RetryCtx → Nat → Option GoErr → Option GoErr × Nat
  | 0, attempt, _, _, lastErr => (lastErr, attempt)
  | fuel + 1, attempt, ctx, renewalTries, lastErr =>
    if shouldTry ctx then
      match tryConnectHtfs offset (responses attempt) with
      | .ok _ => (none, attempt + 1)
      | .renew =>
        if maxRenewals ≤ renewalTries + 1 then
          (some .errTooManyRenewals, attempt + 1)
        else
          connectLoop responses offset fuel (attempt + 1) ctx
            (renewalTries + 1) lastErr
      | .fail e =>
        if shouldRetry e then
          connectLoop responses offset fuel (attempt + 1) (ctxRetry ctx)
            renewalTries (some e)
        else (some e, attempt + 1)
    else (lastErr, attempt)

/-- The open path of `New` (httpfile/httpfile.go): provision the first
connection at offset 0 and, on error, wrap it through `normalizeError`. -/
def openHTTPFile (responses : Nat → HttpResp) (maxTries : Nat) :
    Option GoErr × Nat :=
  let r := connectLoop responses 0 (maxTries + maxRenewals) 0
    ⟨0, maxTries⟩ 0 none
  match r.1 with
  | some e => (some (normalizeError e), r.2)
  | none => (none, r.2)

/-- C9: when the initial GET during open answers HTTP 404 (and the renewal
predicate does not claim the URL expired), open returns the distinguished
`ErrNotFound` sentinel after exactly one attempt — a 404 is never retried,
whatever the retry budget. -/
theorem c9_open_404_not_found (responses : Nat → HttpResp) (maxTries : Nat)
    (hmt : 0 < maxTries)
    (h404 : ∀ i, (responses i).statusCode = 404 ∧
      (responses i).renewalWanted = false) :
    openHTTPFile responses maxTries = (some .errNotFound, 1) := by
  have h0 := h404 0
  have hfail : tryConnectHtfs 0 (responses 0) =
      .fail (.serverError 404 .unknown) := by
    unfold tryConnectHtfs
    rw [h0.1, h0.2]
    norm_num
  unfold openHTTPFile
  have hst : shouldTry ⟨0, maxTries⟩ = true := by
    unfold shouldTry
    simp [hmt]
  have hloop : connectLoop responses 0 (maxTries + maxRenewals) 0
      ⟨0, maxTries⟩ 0 none = (some (.serverError 404 .unknown), 1) := by
    have hfuel : maxTries + maxRenewals = (maxTries + maxRenewals - 1) + 1 := by
      unfold maxRenewals
      omega
    rw [hfuel]
    unfold connectLoop
    rw [hst, hfail]
    simp [shouldRetry]
  rw [hloop]
  simp [normalizeError, isHTTPStatus]

/-- Witness for C9: constant 404 responses with the default budget of 10
tries. -/
theorem c9_open_404_not_found_witness :
    openHTTPFile (fun _ => ⟨404, 0, false⟩) 10 = (some .errNotFound, 1) :=
  c9_open_404_not_found (fun _ => ⟨404, 0, false⟩) 10 (by norm_num)
    (fun _ => ⟨rfl, rfl⟩)

/-! ## Chunk uploader (`chunkUploader.put` / `chunkUploader.tryPut`) -/

/-- Modelled from the spec: `gcsChunkSize` lives in gcs.go, which is not
among the sources; the glossary fixes `block_size = 262144`. -/
def gcsChunkSize : Int := 262144

/-- Modelled from the spec: the GCS status classification (glossary:
`Complete | Resume | NeedQuery | Error`); `interpretGcsStatusCode` lives in
gcs.go, which is not among the sources.  Per §6: 200/201 means complete, 308
means resume incomplete, 5xx means the status must be queried, anything else
is an error. -/
inductive GcsStatus
  | complete
  | resume
  | needQuery
  | gcsError
  deriving DecidableEq, Repr

/-- Modelled from the spec: `interpretGcsStatusCode` (see `GcsStatus`). -/
def interpretGcsStatusCode (status : Int) : GcsStatus :=
  if status = 200 ∨ status = 201 then .complete
  else if status = 308 then .resume
  else if 500 ≤ status ∧ status ≤ 599 then .needQuery
  else .gcsError

/-- A PUT response as `tryPut` consumes it: a transport failure, or a status
code together with the parsed `Range` response header when present.
`parseRangeHeader` lives in gcs.go, not among the sources; per §9 a header
`bytes=a-b` parses to start `a` and end `b`, so the parsed pair stands in
for the header text. -/
structure UploadResp where
  transportErr : Bool
  statusCode : Int
  rangeHeader : Option (Int × Int)
  deriving DecidableEq, Repr

/-- One `tryPut` attempt: the PUT response, plus the response the status
query would return if the need-query path runs (`none` when the query retry
loop gives up). -/
structure UploadAttempt where
  resp : UploadResp
  queryResp : Option UploadResp
  deriving DecidableEq, Repr

/-- Result of one `tryPut` call: success, the `retryError` carrying the
committed byte count, a transport `netError`, a fatal error, or the
non-multiple-of-chunk-size precheck failure (which happens before any PUT is
issued). -/
inductive TryPutRes
  | ok
  | retryErr (committedBytes : Int)
  | netErr
  | fatal (e : GoErr)
  | fatalPre
  deriving DecidableEq, Repr

/-- The resume-ack handling inside `chunkUploader.tryPut`: a missing `Range`
header is a full retry; a committed range must start at 0; an end equal to
`offset + buflen` is a full commit; a negative committed count is fatal; and
otherwise `retryError` carries `committedBytes = end - offset`. -/
def tryPutResume (offset : Int) (buflen : Int) (res : UploadResp) : TryPutRes :=
  match res.rangeHeader with
  | none => .retryErr 0
  | some range =>
    if ¬range.1 = 0 then .fatal .gcsProtocolError
    else if range.2 = offset + buflen then .ok
    else if range.2 - offset < 0 then .fatal .gcsProtocolError
    else .retryErr (range.2 - offset)

/-- The `chunkUploader.tryPut` of the chunk-uploader source: precheck that a
non-last buffer is a multiple of the chunk size; a transport failure is a
`netError`; `200/201` with `last` completes; the need-query path substitutes
the status-query response when that is a 308 (and fails when the query gives
up or answers anything else); a 308 resume ack is handled by
`tryPutResume`; any other status is fatal. -/
def tryPut (offset : Int) (buflen : Int) (last : Bool) (a : UploadAttempt) :
    TryPutRes :=
  if ¬last = true ∧ ¬buflen % gcsChunkSize = 0 then .fatalPre
  else if a.resp.transportErr then .netErr
  else if interpretGcsStatusCode a.resp.statusCode = .complete ∧ last = true then
    .ok
  else if interpretGcsStatusCode a.resp.statusCode = .needQuery then
    match a.queryResp with
    | none => .fatal .gcsProtocolError
    | some q =>
      if q.statusCode = 308 then tryPutResume offset buflen q
      else .fatal .gcsProtocolError
  else if interpretGcsStatusCode a.resp.statusCode = .resume then
    tryPutResume offset buflen a.resp
  else .fatal .gcsProtocolError

/-- The headers and body one PUT carries: `Content-Range: bytes
start-finish/total` (total only on the last request, else `*`) with the
current buffer as body. -/
structure PutReq where
  start : Int
  finish : Int
  total : Option Int
  body : List Byte
  deriving DecidableEq, Repr

/-- The request `tryPut` builds for the current offset and buffer. -/
def mkPutReq (offset : Int) (buf : List Byte) (last : Bool) : PutReq :=
  { start := offset
    finish := offset + buf.length - 1
    total := if last then some (offset + buf.length) else none
    body := buf }

/-- The `chunkUploader.put` retry loop, driven by the response script
`attempts`.  On success the committed offset advances by the current buffer
length; on `retryError` the offset advances by the committed count and the
buffer is re-sliced past it; transport errors retry with the same slice.
Returns the final offset, the issued PUT requests in order, and the error
outcome. -/
def putLoop (attempts : List UploadAttempt) (offset : Int) (buf : List Byte)
    (last : Bool) (ctx : RetryCtx) (reqs : List PutReq) :
    Int × List PutReq × Option GoErr :=
  match attempts with
  | [] => (offset, reqs, some .tooManyUploadErrors)
  | a :: rest =>
    if shouldTry ctx then
      let req := mkPutReq offset buf last
      match tryPut offset (buf.length : Int) last a with
      | .ok => (offset + buf.length, reqs ++ [req], none)
      | .netErr => putLoop rest offset buf last (ctxRetry ctx) (reqs ++ [req])
      | .retryErr cb =>
        putLoop rest (offset + cb) (buf.drop cb.toNat) last (ctxRetry ctx)
          (reqs ++ [req])
      | .fatal e => (offset, reqs ++ [req], some e)
      | .fatalPre => (offset, reqs, some .gcsProtocolError)
    else (offset, reqs, some .tooManyUploadErrors)

/-- C5 counterexample: committed offset 0, a 2-byte last buffer, and a server
that commits k = 1 byte, replying `Range: bytes=0-0` (that is,
`bytes=0-(offset+k-1)` as the claim words it), then fully commits.  The next
PUT after the partial commit starts again at 0 with the full body `[5,6]` —
not at `offset+k = 1` with body `[6]` as the claim predicts. -/
theorem c5_partial_commit_counterexample :
    (putLoop [⟨⟨false, 308, some (0, 0)⟩, none⟩, ⟨⟨false, 308, some (0, 2)⟩, none⟩]
        0 [5, 6] true ⟨0, 10⟩ []).2.1 =
      [mkPutReq 0 [5, 6] true, mkPutReq 0 [5, 6] true] ∧
    mkPutReq 0 [5, 6] true ≠ mkPutReq 1 [6] true := by
  constructor
  · rfl
  · decide

/-- C5 (amended): a fully successful PUT advances the committed offset by
exactly the buffer length; and when the server's resume ack reports
`Range: bytes=0-(offset+k)` — the code reads the range end as the count of
committed bytes from 0 — the next PUT starts at `offset+k` with the
remaining tail `buf[k:]` as body (provided the second attempt passes the
chunk-multiple precheck). -/
theorem c5_put_advance_and_resume (offset : Int) (buf : List Byte)
    (last : Bool) (a1 a2 : UploadAttempt) (maxTries : Nat) (k : Nat)
    (hmt : 2 ≤ maxTries) :
    (tryPut offset (buf.length : Int) last a1 = .ok →
      putLoop [a1, a2] offset buf last ⟨0, maxTries⟩ [] =
        (offset + buf.length, [mkPutReq offset buf last], none)) ∧
    (tryPut offset (buf.length : Int) last a1 = .retryErr (k : Int) →
      tryPut (offset + k) ((buf.drop k).length : Int) last a2 ≠ .fatalPre →
      (putLoop [a1, a2] offset buf last ⟨0, maxTries⟩ []).2.1 =
        [mkPutReq offset buf last, mkPutReq (offset + k) (buf.drop k) last]) := by
  have hst0 : shouldTry ⟨0, maxTries⟩ = true := by
    unfold shouldTry
    simp only [decide_eq_true_eq]
    omega
  have hst1 : shouldTry (ctxRetry ⟨0, maxTries⟩) = true := by
    unfold shouldTry ctxRetry
    simp only [decide_eq_true_eq]
    omega
  constructor
  · intro hok
    unfold putLoop
    rw [hst0, hok]
    simp
  · intro hretry hpre2
    have htn : ((k : Int)).toNat = k := Int.toNat_natCast k
    unfold putLoop
    rw [hst0, hretry]
    simp only [htn]
    unfold putLoop
    rw [hst1]
    rcases h2 : tryPut (offset + k) ((buf.drop k).length : Int) last a2
      with _ | cb | _ | e | _
    · simp
    · unfold putLoop
      simp
    · unfold putLoop
      simp
    · simp
    · exact absurd h2 hpre2

/-- Witness for C5: offset 0, last buffer `[5,6]`, resume ack `bytes=0-1`
(one committed byte, exclusive-end convention), then a full commit; the two
issued PUTs are the full buffer at 0 and the tail `[6]` at 1. -/
theorem c5_put_advance_and_resume_witness :
    (putLoop [⟨⟨false, 308, some (0, 1)⟩, none⟩, ⟨⟨false, 308, some (0, 2)⟩, none⟩]
        0 [5, 6] true ⟨0, 10⟩ []).2.1 =
      [mkPutReq 0 [5, 6] true, mkPutReq 1 [6] true] := by
  have h := (c5_put_advance_and_resume 0 [5, 6] true
      ⟨⟨false, 308, some (0, 1)⟩, none⟩ ⟨⟨false, 308, some (0, 2)⟩, none⟩ 10 1
      (by norm_num)).2 (by decide) (by decide)
  simpa using h

/-! ## Resumable uploader (uploader/resumable2.go) -/

/-- Upload block size; `rblockSize` in uploader/resumable2.go (256 KiB). -/
def rblockSize : Nat := 262144

/-- Maximum number of blocks aggregated into one PUT; `maxChunkGroup` in
`NewResumableUpload2` (64 blocks, 16 MiB). -/
def maxChunkGroup : Nat := 64

/-- A block on the `blocks` channel (`rblock`). -/
structure RBlock where
  data : List Byte
  last : Bool
  deriving DecidableEq, Repr

/-- The buffering loop inside `resumableUpload2.Write`, acting on the local
buffer copy `sb`: at each iteration, if the 256 KiB buffer has no space
left, a clone of its contents is flushed as a non-last block and it is
reset; then `min(avail_read, avail_write)` bytes are copied from the
remaining input.  Returns the flushed blocks and the final contents of the
local buffer.  The explicit fuel makes the recursion structural; every
iteration consumes at least one input byte, so `fuel = rest.length` is
always enough. -/
def writeGo : Nat → List Byte → List Byte → List RBlock →
    List RBlock × List Byte
  | 0, sb, _, flushed => (flushed, sb)
  | fuel + 1, sb, rest, flushed =>
    match rest with
    | [] => (flushed, sb)
    | r :: rs =>
      if rblockSize - sb.length = 0 then
        writeGo fuel (List.take (min (r :: rs).length rblockSize) (r :: rs))
          (List.drop (min (r :: rs).length rblockSize) (r :: rs))
          (flushed ++ [⟨sb, false⟩])
      else
        writeGo fuel
          (sb ++ List.take (min (r :: rs).length (rblockSize - sb.length)) (r :: rs))
          (List.drop (min (r :: rs).length (rblockSize - sb.length)) (r :: rs))
          flushed

/-- The uploader state the producer-side methods touch: the worker-recorded
error, whether the `cancel` channel has been closed, the FIFO contents of
the `blocks` channel, and the `ru.splitBuf` field. -/
structure UpState where
  err : Option GoErr
  cancelClosed : Bool
  queue : List RBlock
  splitBuf : List Byte
  deriving DecidableEq, Repr

/-- The state `NewResumableUpload2` constructs. -/
def initUpState : UpState := ⟨none, false, [], []⟩

/-- Result of one `Write` call: bytes accepted, the latched error with bytes
accepted, or a run-time panic. -/
inductive WriteRes
  | ok (n : Nat)
  | errRes (n : Nat) (e : GoErr)
  | panicked
  deriving DecidableEq, Repr

/-- The `resumableUpload2.Write` method.  `sb := ru.splitBuf` copies the
`bytes.Buffer` by value, so all buffering happens in the local copy `sb`
and never reaches `ru.splitBuf`, whose length stays 0 across calls; only
blocks flushed through the channel survive the call.  If the worker has
recorded an error, the write closes `cancel` — a run-time panic when
`cancel` is already closed — and returns the latched error with 0 bytes
written. -/
def uploadWrite (s : UpState) (buf : List Byte) : WriteRes × UpState :=
  match buf with
  | [] => (.ok 0, s)
  | _ =>
    match s.err with
    | some e =>
      if s.cancelClosed then (.panicked, s)
      else (.errRes 0 e, { s with cancelClosed := true })
    | none =>
      (.ok buf.length,
        { s with queue := s.queue ++ (writeGo buf.length s.splitBuf buf []).1 })

/-- The flush in `resumableUpload2.Close`: the current `ru.splitBuf`
contents are enqueued as a Block with `last = true` and the channel is
closed. -/
def uploadCloseQueue (s : UpState) : List RBlock :=
  s.queue ++ [⟨s.splitBuf, true⟩]

/-- What one channel receive in the worker observes: a block, the closed
channel (`nil` block), or — for the non-blocking receives of the
aggregation loop — a momentarily empty channel (`default`). -/
inductive WEvent
  | blk (b : RBlock)
  | chanClosed
  | empty
  deriving DecidableEq, Repr

/-- The two waiting positions of the worker loop: the blocking first
receive of the `scan` iteration, and the non-blocking `aggregate` loop. -/
inductive WPhase
  | scan
  | aggregate
  deriving DecidableEq, Repr

/-- The `resumableUpload2.work` loop, driven by the trace of channel
receives.  In `scan`, an empty `sendBuf` triggers a blocking receive (an
`empty` observation just keeps waiting); a closed channel breaks to the
terminal send; a last block breaks to the terminal send after appending; a
non-last block moves to aggregation.  In `aggregate`, up to
`maxChunkGroup` blocks accumulate; an empty channel ends the group, upon
which `put(sendBuf, true)` is issued — the source passes `true` here, not
`false` — and the loop restarts.  The terminal send also passes `true`.
Returns the `chunkUploader.put` calls issued, in order, as
(body, last-flag) pairs.  Fuel makes the recursion structural; at most two
steps happen per event plus a bounded tail. -/
def workGo : Nat → List WEvent → WPhase → List Byte → Nat →
    List (List Byte × Bool) → List (List Byte × Bool)
  | 0, _, _, _, _, puts => puts
  | fuel + 1, events, .scan, sendBuf, cgs, puts =>
    if sendBuf.length = 0 then
      match events with
      | [] => puts
      | .empty :: rest => workGo fuel rest .scan sendBuf cgs puts
      | .chanClosed :: _ => puts ++ [(sendBuf, true)]
      | .blk b :: rest =>
        if b.last then puts ++ [(sendBuf ++ b.data, true)]
        else workGo fuel rest .aggregate (sendBuf ++ b.data) 1 puts
    else workGo fuel events .aggregate sendBuf 0 puts
  | fuel + 1, events, .aggregate, sendBuf, cgs, puts =>
    if cgs < maxChunkGroup then
      match events with
      | [] => workGo fuel [] .scan [] 0 (puts ++ [(sendBuf, true)])
      | .empty :: rest => workGo fuel rest .scan [] 0 (puts ++ [(sendBuf, true)])
      | .chanClosed :: _ => puts ++ [(sendBuf, true)]
      | .blk b :: rest =>
        if b.last then puts ++ [(sendBuf ++ b.data, true)]
        else workGo fuel rest .aggregate (sendBuf ++ b.data) (cgs + 1) puts
    else workGo fuel events .scan [] 0 (puts ++ [(sendBuf, true)])

/-- The worker's put calls for a given receive trace. -/
def workPuts (events : List WEvent) : List (List Byte × Bool) :=
  workGo (2 * events.length + 4) events .scan [] 0 []

/-- Producer-then-worker run of the uploader: the writes are applied in
order from the fresh state, `Close` enqueues the final block and closes the
channel, and the worker then drains the FIFO channel contents followed by
the closed-channel observation.  Returns the put calls the worker issues. -/
def uploadRun (writes : List (List Byte)) : List (List Byte × Bool) :=
  let s := writes.foldl (fun s w => (uploadWrite s w).2) initUpState
  workPuts ((uploadCloseQueue s).map WEvent.blk ++ [WEvent.chanClosed])

/-- The bytes the run commits: the concatenation of all put bodies. -/
def uploadCommitted (writes : List (List Byte)) : List Byte :=
  ((uploadRun writes).map Prod.fst).flatten

/-- C1: evaluation at the failing input.  A single 3-byte write followed by
close uploads nothing: the bytes buffered by `Write` live only in the local
copy of the split buffer and the final block flushed by `Close` is empty,
so the concatenation of all committed PUT bodies is `[]`, not the written
sequence `[1,2,3]`. -/
theorem c1_upload_drops_buffered_bytes :
    uploadCommitted [[1, 2, 3]] = [] ∧
      List.flatten [[1, 2, 3]] = [1, 2, 3] ∧ ([] : List Byte) ≠ [1, 2, 3] := by
  decide

/-- C2: evaluation at a failing trace.  The worker receives one non-last
block `[10]`, finds the channel momentarily empty (ending the chunk group),
and then receives the last block `[20]`.  It issues two puts, and the
mid-stream (non-terminal) one carries `last = true` — the source passes
`true` on every put — where the claim requires `false`. -/
theorem c2_mid_stream_put_has_last_true :
    workPuts [.blk ⟨[10], false⟩, .empty, .blk ⟨[20], true⟩] =
      [([10], true), ([20], true)] := by
  decide

/-- C7: evaluation at the failing input.  With a worker-recorded error
latched, the first subsequent write returns that error and closes `cancel`;
the second subsequent write then attempts to close the already-closed
`cancel` channel and panics instead of returning the latched error. -/
theorem c7_second_write_after_error_panics :
    uploadWrite ⟨some .netError, false, [], []⟩ [1] =
        (.errRes 0 .netError, ⟨some .netError, true, [], []⟩) ∧
      uploadWrite ⟨some .netError, true, [], []⟩ [1] =
        (.panicked, ⟨some .netError, true, [], []⟩) := by
  decide

end HTTPKit
